import Mathlib

/-!
Verification of the UPB message codec of `src/upb_lib/message.py`.

The codec is embedded shallowly: Python `bytes`/`bytearray` values become
`List Nat` (each element < 256 in well-formed data), the hex strings produced
by `bytearray.hex().upper()` and consumed by `bytearray.fromhex` become Lean
`String`s through an explicit character-level model, and Python functions that
can raise become `Option`-valued functions (a raised exception is `none`).
-/

namespace UpbLib

/-- PIM source id constant (`PIM_ID = 0xFF`, message.py line 13). -/
def PIM_ID : Nat := 0xFF

/-- Address record supplied by the device-model layer (see `UpbAddr` in
lights.py and the spec, section 3): network id, target (upb) id, channel
index, link/device addressing flags and the multi-channel flag. -/
structure Address where
  network_id : Nat
  upb_id : Nat
  channel : Nat
  is_link : Bool
  is_device : Bool
  multi_channel : Bool

/-- The `Message` namedtuple (message.py lines 15-18): the decoded frame. -/
structure Message where
  link : Bool
  repeater_req : Nat
  length : Nat
  ack_req : Nat
  tx_count : Nat
  tx_seq : Nat
  network_id : Nat
  dest_id : Nat
  src_id : Nat
  msg_id : Nat
  data : List Nat
  deriving DecidableEq

/-! ## Hex string model

`_encode_message` and `increment_tx_count` serialize frames with
`bytearray.hex().upper()` and parse them with `bytearray.fromhex`.  Both
builtins are modelled character by character. -/

/-- Uppercase hex digit of a nibble, as produced by `hex().upper()`. -/
def hexDigitChar (n : Nat) : Char :=
  if n < 10 then Char.ofNat (48 + n) else Char.ofNat (55 + n)

/-- Character list of `bytes.hex().upper()`: two uppercase digits per byte. -/
def hexChars : List Nat → List Char
  | [] => []
  | b :: bs => hexDigitChar (b / 16) :: hexDigitChar (b % 16) :: hexChars bs

/-- Model of `bytearray(...).hex().upper()`. -/
def hexEncode (bs : List Nat) : String :=
  String.mk (hexChars bs)

/-- Value of one hex digit, upper or lower case, as accepted by
`bytearray.fromhex`. -/
def hexDigitVal (c : Char) : Option Nat :=
  if 48 ≤ c.toNat ∧ c.toNat ≤ 57 then some (c.toNat - 48)
  else if 65 ≤ c.toNat ∧ c.toNat ≤ 70 then some (c.toNat - 55)
  else if 97 ≤ c.toNat ∧ c.toNat ≤ 102 then some (c.toNat - 87)
  else none

/-- Model of `bytearray.fromhex` on a character list: hex digits are consumed
in pairs; a stray digit or a non-hex character raises `ValueError`, modelled
as `none`.  (The builtin also skips ASCII spaces between pairs; the frames
this codec produces and re-parses contain none.) -/
def hexDecodeChars : List Char → Option (List Nat)
  | [] => some []
  | [_] => none
  | c1 :: c2 :: cs =>
    match hexDigitVal c1, hexDigitVal c2, hexDecodeChars cs with
    | some hi, some lo, some bs => some ((hi * 16 + lo) :: bs)
    | _, _, _ => none

/-- Model of `bytearray.fromhex(s)`. -/
def hexDecode (s : String) : Option (List Nat) :=
  hexDecodeChars s.data

/-! ## Decoder (class MessageDecode, message.py lines 21-83) -/

/-- Model of `int.from_bytes(_, byteorder="big")`. -/
def int_from_bytes_be (bs : List Nat) : Nat :=
  bs.foldl (fun acc b => acc * 256 + b) 0

/-- `MessageDecode.decode` (message.py lines 45-77).  The `ValueError`
raised for an input shorter than 6 bytes is modelled as `none`; otherwise
the control word is read big-endian from bytes 0-1 and unpacked with the
shifts and masks of the source. -/
def decode (msg : List Nat) : Option Message :=
  if h : msg.length < 6 then none
  else
    let control := int_from_bytes_be (msg.take 2)
    some {
      link := (control &&& 0x8000) != 0
      repeater_req := (control >>> 13) &&& 3
      length := (control >>> 8) &&& 31
      ack_req := (control >>> 4) &&& 7
      tx_count := (control >>> 2) &&& 3
      tx_seq := control &&& 3
      network_id := msg.get ⟨2, by omega⟩
      dest_id := msg.get ⟨3, by omega⟩
      src_id := msg.get ⟨4, by omega⟩
      msg_id := msg.get ⟨5, by omega⟩
      data := msg.drop 6
    }

/-! ## Handler registry (MessageDecode.add_handler, message.py lines 28-35)

`self._handlers` is a Python dict mapping a command code to a list of
callbacks.  Python dicts are insertion ordered, so the dict is modelled as an
association list: an update of a present key rewrites its value in place, a
new key is appended at the end. -/

/-- Lookup in the modelled dict (`reg[c]` / `c in reg`). -/
def dict_lookup {H : Type} (reg : List (Nat × List H)) (c : Nat) : Option (List H) :=
  match reg with
  | [] => none
  | (k, v) :: rest => if k = c then some v else dict_lookup rest c

/-- Key assignment in the modelled dict (`reg[c] = v`): rewrites a present
key in place, appends an absent key. -/
def dict_set {H : Type} (reg : List (Nat × List H)) (c : Nat) (v : List H) :
    List (Nat × List H) :=
  match reg with
  | [] => [(c, v)]
  | (k, w) :: rest => if k = c then (k, v) :: rest else (k, w) :: dict_set rest c v

/-- `MessageDecode.add_handler` (message.py lines 28-35): ensure the key is
present, then append the handler only if it is not already registered. -/
def add_handler {H : Type} [DecidableEq H] (reg : List (Nat × List H))
    (message_type : Nat) (handler : H) : List (Nat × List H) :=
  let reg1 := if (dict_lookup reg message_type).isNone
              then dict_set reg message_type [] else reg
  let l := (dict_lookup reg1 message_type).getD []
  if handler ∈ l then reg1 else dict_set reg1 message_type (l ++ [handler])

/-! ## Encoder (class MessageEncode, message.py lines 89-173) -/

/-- `_update_checksum` (message.py lines 85-87):
`msg[-1] = (256 - reduce(add, msg)) % 256`.  The sum ranges over the whole
byte array, including the final byte being overwritten (both call sites zero
it first); the Python `%` on a possibly negative value is `Int.emod`. -/
def _update_checksum (msg : List Nat) : List Nat :=
  msg.set (msg.length - 1) (((256 - (msg.sum : Int)) % 256).toNat)

/-- `MessageEncode._create_control_word` (message.py lines 96-103).  The
injected `get_tx_count` capability is passed explicitly.  Python operator
precedence makes the last line `(get_tx_count(...) - 1) << 2`. -/
def _create_control_word (get_tx_count : Nat → Nat → Nat) (addr : Address)
    (repeater : Nat) (ack : Nat) : Nat :=
  let ctl := (if addr.is_link then 1 else 0) <<< 15
  let ctl := ctl ||| (repeater <<< 13)
  let ctl := ctl ||| (ack <<< 4)
  let ctl := ctl ||| ((get_tx_count addr.network_id addr.upb_id - 1) <<< 2)
  ctl

/-- `MessageEncode._encode_message` (message.py lines 105-118).  `ctl = -1`
selects the automatically built control word (callers pass `ctl=-1` by
default).  `bytearray(length)` is zero filled and the slice assignments fill
bytes 0-5 and the payload, leaving the final byte 0.  `int.to_bytes(2, "big")`
raises `OverflowError` for a value outside 16 bits, and storing a value
outside 0-255 into a bytearray raises `ValueError`; both are modelled as
`none`. -/
def _encode_message (get_tx_count : Nat → Nat → Nat) (ctl : Int)
    (addr : Address) (src_id : Nat) (msg_code : Nat) (data : List Nat) :
    Option String :=
  let ctlN : Nat :=
    if ctl = -1 then _create_control_word get_tx_count addr 0 0 else ctl.toNat
  let length := 7 + data.length
  let ctl2 := ctlN ||| (length <<< 8)
  if ctl2 < 65536 ∧ addr.network_id < 256 ∧ addr.upb_id < 256 ∧
      src_id < 256 ∧ msg_code < 256 ∧ data.all (· < 256) then
    let msg := [ctl2 >>> 8, ctl2 &&& 255, addr.network_id, addr.upb_id,
                src_id, msg_code] ++ data ++ [0]
    some (hexEncode (_update_checksum msg))
  else none

/-- `MessageEncode.increment_tx_count` (message.py lines 120-132).
`bytearray.fromhex` failure and the `msg[1]` IndexError on a short input are
`none`.  Python computes `ctl & ~(3 << 2)`; on a byte value (< 256, as every
`fromhex` output is) that equals `ctl &&& 0xF3`, and precedence makes the
next line `ctl | ((tx_count + 1) << 2)`. -/
def increment_tx_count (hex_msg : String) : Option String :=
  match hexDecode hex_msg with
  | none => none
  | some msg =>
    match msg[1]? with
    | none => none
    | some ctl =>
      let tx_count := (ctl >>> 2) &&& 3
      if tx_count = 3 then some hex_msg
      else
        let ctl := (ctl &&& 0xF3) ||| ((tx_count + 1) <<< 2)
        let msg := msg.set 1 ctl
        let msg := msg.set (msg.length - 1) 0
        some (hexEncode (_update_checksum msg))

/-- Payload bytes built by `MessageEncode._encode_common` (message.py lines
142-152) before it delegates to `_encode_message`: `args = bytearray([level])`
followed by the conditional appends.  `rate = int(rate)` is the identity on
an integer rate. -/
def _encode_common_args (addr : Address) (level : Nat) (rate : Int) : List Nat :=
  if addr.is_device && addr.multi_channel then
    [level, if rate = -1 then 0xFF else rate.toNat, addr.channel + 1]
  else if rate = -1 then
    [level]
  else
    [level, rate.toNat]

/-- `MessageEncode._encode_common` (message.py lines 142-152). -/
def _encode_common (get_tx_count : Nat → Nat → Nat) (ctl : Int)
    (addr : Address) (cmd : Nat) (level : Nat) (rate : Int) : Option String :=
  _encode_message get_tx_count ctl addr PIM_ID cmd
    (_encode_common_args addr level rate)

/-- Modelled from the spec: the command code table (`UpbCommand` in const.py)
is not under src/; the spec (section 6) names the codes but fixes no numeric
values, so the two used by the claims are given representative byte values. -/
def UpbCommand.GOTO : Nat := 0x22

/-- Modelled from the spec: see `UpbCommand.GOTO`. -/
def UpbCommand.FADE_START : Nat := 0x23

/-- `MessageEncode.goto` (message.py lines 154-156). -/
def goto (get_tx_count : Nat → Nat → Nat) (ctl : Int) (addr : Address)
    (level : Nat) (rate : Int) : Option String :=
  _encode_common get_tx_count ctl addr UpbCommand.GOTO level rate

/-- `MessageEncode.fade_start` (message.py lines 158-160). -/
def fade_start (get_tx_count : Nat → Nat → Nat) (ctl : Int) (addr : Address)
    (level : Nat) (rate : Int) : Option String :=
  _encode_common get_tx_count ctl addr UpbCommand.FADE_START level rate

/-- Tx-count field of a frame in the words of the spec: bits 3-2 of the byte
at index 1 (the low byte of the control word). -/
def tx_count_field (bs : List Nat) : Nat :=
  (bs.getD 1 0) / 4 % 4

/-! ## Helper lemmas: the hex layer -/

theorem hexDigitVal_hexDigitChar : ∀ n, n < 16 →
    hexDigitVal (hexDigitChar n) = some n := by decide

theorem hexDigitVal_lt {c : Char} {v : Nat} (h : hexDigitVal c = some v) :
    v < 16 := by
  unfold hexDigitVal at h
  split at h
  · injection h with h2; omega
  · split at h
    · injection h with h2; omega
    · split at h
      · injection h with h2; omega
      · cases h

theorem hexDecodeChars_hexChars : ∀ bs : List Nat, (∀ b ∈ bs, b < 256) →
    hexDecodeChars (hexChars bs) = some bs := by
  intro bs
  induction bs with
  | nil => intro _; rfl
  | cons b rest ih =>
    intro hb
    have hb256 : b < 256 := hb b (by simp)
    have h1 : hexDigitVal (hexDigitChar (b / 16)) = some (b / 16) :=
      hexDigitVal_hexDigitChar _ (by omega)
    have h2 : hexDigitVal (hexDigitChar (b % 16)) = some (b % 16) :=
      hexDigitVal_hexDigitChar _ (by omega)
    have h3 := ih (fun x hx => hb x (by simp [hx]))
    simp [hexChars, hexDecodeChars, h1, h2, h3]
    omega

theorem hexDecode_hexEncode (bs : List Nat) (hb : ∀ b ∈ bs, b < 256) :
    hexDecode (hexEncode bs) = some bs :=
  hexDecodeChars_hexChars bs hb

theorem hexDecodeChars_lt : ∀ (cs : List Char) (bs : List Nat),
    hexDecodeChars cs = some bs → ∀ b ∈ bs, b < 256
  | [], bs, h => by
    cases h; intro b hb; cases hb
  | [_], bs, h => by cases h
  | c1 :: c2 :: cs, bs, h => by
    unfold hexDecodeChars at h
    cases h1 : hexDigitVal c1 with
    | none => rw [h1] at h; simp at h
    | some hi =>
      cases h2 : hexDigitVal c2 with
      | none => rw [h1, h2] at h; simp at h
      | some lo =>
        cases h3 : hexDecodeChars cs with
        | none => rw [h1, h2, h3] at h; simp at h
        | some rest =>
          rw [h1, h2, h3] at h
          simp at h
          subst h
          intro b hb
          rcases List.mem_cons.mp hb with hb | hb
          · have := hexDigitVal_lt h1
            have := hexDigitVal_lt h2
            omega
          · exact hexDecodeChars_lt cs rest h3 b hb

theorem hexDecode_lt (s : String) (bs : List Nat) (h : hexDecode s = some bs) :
    ∀ b ∈ bs, b < 256 :=
  hexDecodeChars_lt s.data bs h

/-! ## Helper lemmas: checksum -/

theorem set_append_last (A : List Nat) (x v : Nat) :
    (A ++ [x]).set A.length v = A ++ [v] := by
  rw [List.set_append_right _ _ (Nat.le_refl _)]
  simp

theorem set_last_eq (l : List Nat) (hl : l ≠ []) (v : Nat) :
    l.set (l.length - 1) v = l.dropLast ++ [v] := by
  conv_lhs => rw [← List.dropLast_concat_getLast hl]
  have h : (l.dropLast ++ [l.getLast hl]).length - 1 = l.dropLast.length := by simp
  rw [h, set_append_last]

theorem update_checksum_append (A : List Nat) (x : Nat) :
    _update_checksum (A ++ [x]) =
      A ++ [((256 - ((A.sum + x : Nat) : Int)) % 256).toNat] := by
  unfold _update_checksum
  have h1 : (A ++ [x]).length - 1 = A.length := by simp
  rw [h1, set_append_last]
  simp

theorem sum_update_checksum_append_zero (A : List Nat) :
    (_update_checksum (A ++ [0])).sum % 256 = 0 := by
  rw [update_checksum_append]
  rw [List.sum_append]
  generalize A.sum = S
  simp
  omega

/-! ## Helper lemmas: bounded bit computations (checked byte by byte) -/

set_option maxRecDepth 4096 in
theorem txfield_byte_eq : ∀ ctl, ctl < 256 → (ctl >>> 2) &&& 3 = ctl / 4 % 4 := by
  decide

set_option maxRecDepth 4096 in
theorem ctl_step_bits : ∀ ctl, ctl < 256 → ¬((ctl >>> 2) &&& 3 = 3) →
    ((ctl &&& 0xF3) ||| ((((ctl >>> 2) &&& 3) + 1) <<< 2)) < 256 ∧
    ((ctl &&& 0xF3) ||| ((((ctl >>> 2) &&& 3) + 1) <<< 2)) / 4 % 4 = ctl / 4 % 4 + 1 ∧
    ((ctl &&& 0xF3) ||| ((((ctl >>> 2) &&& 3) + 1) <<< 2)) % 4 = ctl % 4 ∧
    ((ctl &&& 0xF3) ||| ((((ctl >>> 2) &&& 3) + 1) <<< 2)) / 16 = ctl / 16 := by
  decide

set_option maxRecDepth 8192 in
theorem control_word_bits : ∀ l, l < 2 → ∀ rep, rep < 4 → ∀ ack, ack < 16 →
    ∀ t, t < 4 →
    ((((l <<< 15) ||| (rep <<< 13)) ||| (ack <<< 4)) ||| (t <<< 2)) < 65536 ∧
    ((((l <<< 15) ||| (rep <<< 13)) ||| (ack <<< 4)) ||| (t <<< 2)) / 2 ^ 15 = l ∧
    ((((l <<< 15) ||| (rep <<< 13)) ||| (ack <<< 4)) ||| (t <<< 2)) / 2 ^ 13 % 4 = rep ∧
    ((((l <<< 15) ||| (rep <<< 13)) ||| (ack <<< 4)) ||| (t <<< 2)) / 2 ^ 4 % 16 = ack ∧
    ((((l <<< 15) ||| (rep <<< 13)) ||| (ack <<< 4)) ||| (t <<< 2)) / 4 % 4 = t ∧
    ((((l <<< 15) ||| (rep <<< 13)) ||| (ack <<< 4)) ||| (t <<< 2)) % 4 = 0 := by
  intro l hl rep hr ack ha t ht
  interval_cases l <;> interval_cases rep <;> interval_cases ack <;>
    interval_cases t <;> decide

/-! ## Helper lemmas: shifts, masks and bit language -/

theorem and_mask3_mod (x : Nat) : x &&& 3 = x % 4 := by
  have h := Nat.and_pow_two_sub_one_eq_mod x 2
  norm_num at h
  exact h

theorem and_mask7_mod (x : Nat) : x &&& 7 = x % 8 := by
  have h := Nat.and_pow_two_sub_one_eq_mod x 3
  norm_num at h
  exact h

theorem and_mask15_mod (x : Nat) : x &&& 15 = x % 16 := by
  have h := Nat.and_pow_two_sub_one_eq_mod x 4
  norm_num at h
  exact h

theorem and_mask31_mod (x : Nat) : x &&& 31 = x % 32 := by
  have h := Nat.and_pow_two_sub_one_eq_mod x 5
  norm_num at h
  exact h

theorem and_mask255_mod (x : Nat) : x &&& 255 = x % 256 := by
  have h := Nat.and_pow_two_sub_one_eq_mod x 8
  norm_num at h
  exact h

theorem and_8000_ne_zero (c : Nat) : ((c &&& 0x8000) != 0) = c.testBit 15 := by
  have h : (0x8000 : Nat) = 2 ^ 15 := by norm_num
  rw [h, Nat.and_two_pow]
  cases hb : c.testBit 15 <;> simp [hb]

theorem int_from_bytes_be_two (b0 b1 : Nat) :
    int_from_bytes_be [b0, b1] = b0 * 256 + b1 := by
  simp [int_from_bytes_be, List.foldl]

/-- Computation of `decode` on a list with at least six elements. -/
theorem decode_cons6 (b0 b1 n d s0 mc : Nat) (rest : List Nat) :
    decode (b0 :: b1 :: n :: d :: s0 :: mc :: rest) =
      some {
        link := (int_from_bytes_be [b0, b1] &&& 0x8000) != 0
        repeater_req := (int_from_bytes_be [b0, b1] >>> 13) &&& 3
        length := (int_from_bytes_be [b0, b1] >>> 8) &&& 31
        ack_req := (int_from_bytes_be [b0, b1] >>> 4) &&& 7
        tx_count := (int_from_bytes_be [b0, b1] >>> 2) &&& 3
        tx_seq := int_from_bytes_be [b0, b1] &&& 3
        network_id := n
        dest_id := d
        src_id := s0
        msg_id := mc
        data := rest } := by
  unfold decode
  rw [dif_neg (by simp)]
  rfl

/-! ## Claim C2 -/

/-- C2: `decode` fails (with the `ValueError` the spec calls `MalformedFrame`,
modelled as `none`, hence with no partial result) exactly when the input has
fewer than 6 bytes, and succeeds deterministically on every input of at least
6 bytes. -/
theorem decode_malformed_iff_short :
    ∀ msg : List Nat, (msg.length < 6 → decode msg = none) ∧
      (6 ≤ msg.length → ∃ m, decode msg = some m) := by
  intro msg
  constructor
  · intro h
    simp [decode, h]
  · intro h
    unfold decode
    rw [dif_neg (by omega)]
    exact ⟨_, rfl⟩

/-- Witness for C2 at a 5-byte and a 6-byte input. -/
theorem decode_malformed_iff_short_witness :
    decode [1, 2, 3, 4, 5] = none ∧ ∃ m, decode [1, 2, 3, 4, 5, 6] = some m :=
  ⟨(decode_malformed_iff_short [1, 2, 3, 4, 5]).1 (by decide),
   (decode_malformed_iff_short [1, 2, 3, 4, 5, 6]).2 (by decide)⟩

/-! ## Claim C6 -/

/-- C6 counterexample: on the frame with control word `0x00F0` the claimed
value of `ack_req` (bits 7-4 of the control word, which are `15` here) differs
from what `decode` computes: the source masks with `& 7`, a 3-bit field, and
returns `7`. -/
theorem decode_ack_req_not_bits_7_4 :
    decode [0, 240, 0, 0, 0, 0] =
      some { link := false, repeater_req := 0, length := 0, ack_req := 7,
             tx_count := 0, tx_seq := 0, network_id := 0, dest_id := 0,
             src_id := 0, msg_id := 0, data := [] } ∧
    (240 * 1 / 2 ^ 4 % 2 ^ 4 : Nat) = 15 ∧ (7 : Nat) ≠ 15 := by
  refine ⟨by decide, by norm_num, by norm_num⟩

/-- C6 (amended: `ack_req` is bits 6-4 of the control word, a 3-bit field,
not bits 7-4): for every input of at least 6 bytes, `decode` reads bytes 0-1
as a big-endian 16-bit control word and extracts link = bit 15,
repeater_req = bits 14-13, length = bits 12-8, ack_req = bits 6-4,
tx_count = bits 3-2, tx_seq = bits 1-0, the four id bytes, and the remaining
bytes as data. -/
theorem decode_field_extraction :
    ∀ msg : List Nat, 6 ≤ msg.length →
    ∃ m, decode msg = some m ∧
      m.link = Nat.testBit (msg.getD 0 0 * 256 + msg.getD 1 0) 15 ∧
      m.repeater_req = (msg.getD 0 0 * 256 + msg.getD 1 0) / 2 ^ 13 % 4 ∧
      m.length = (msg.getD 0 0 * 256 + msg.getD 1 0) / 2 ^ 8 % 32 ∧
      m.ack_req = (msg.getD 0 0 * 256 + msg.getD 1 0) / 2 ^ 4 % 8 ∧
      m.tx_count = (msg.getD 0 0 * 256 + msg.getD 1 0) / 2 ^ 2 % 4 ∧
      m.tx_seq = (msg.getD 0 0 * 256 + msg.getD 1 0) % 4 ∧
      m.network_id = msg.getD 2 0 ∧ m.dest_id = msg.getD 3 0 ∧
      m.src_id = msg.getD 4 0 ∧ m.msg_id = msg.getD 5 0 ∧
      m.data = msg.drop 6 := by
  intro msg h6
  rcases msg with _ | ⟨b0, _ | ⟨b1, _ | ⟨n, _ | ⟨d, _ | ⟨s0, _ | ⟨mc, rest⟩⟩⟩⟩⟩⟩ <;>
    simp only [List.length_nil, List.length_cons] at h6 <;> try omega
  refine ⟨_, decode_cons6 b0 b1 n d s0 mc rest, ?_⟩
  simp only [int_from_bytes_be_two, List.getD_cons_zero, List.getD_cons_succ]
  refine ⟨?_, ?_, ?_, ?_, ?_, ?_, trivial, trivial, trivial, trivial, rfl⟩
  · exact and_8000_ne_zero _
  · rw [Nat.shiftRight_eq_div_pow, and_mask3_mod]
  · rw [Nat.shiftRight_eq_div_pow, and_mask31_mod]
  · rw [Nat.shiftRight_eq_div_pow, and_mask7_mod]
  · rw [Nat.shiftRight_eq_div_pow, and_mask3_mod]
  · exact and_mask3_mod _

/-- Witness for C6 at the concrete frame `87 1C 09 08 07 06`. -/
theorem decode_field_extraction_witness :
    ∃ m, decode [135, 28, 9, 8, 7, 6] = some m ∧
      m.link = Nat.testBit (135 * 256 + 28) 15 ∧
      m.repeater_req = (135 * 256 + 28) / 2 ^ 13 % 4 ∧
      m.length = (135 * 256 + 28) / 2 ^ 8 % 32 ∧
      m.ack_req = (135 * 256 + 28) / 2 ^ 4 % 8 ∧
      m.tx_count = (135 * 256 + 28) / 2 ^ 2 % 4 ∧
      m.tx_seq = (135 * 256 + 28) % 4 ∧
      m.network_id = 9 ∧ m.dest_id = 8 ∧ m.src_id = 7 ∧ m.msg_id = 6 ∧
      m.data = [] :=
  decode_field_extraction [135, 28, 9, 8, 7, 6] (by decide)

/-! ## Claim C4 -/

/-- C4: the control word built by `_create_control_word` packs bit 15 =
`addr.is_link`, bits 14-13 = repeater request, bits 7-4 = ack request,
bits 3-2 = declared tx count minus one, and bits 1-0 = 0, under the caller
contract that the arguments are in range (repeater 0-3, ack 0-15, declared
tx count 1-4). -/
theorem create_control_word_bit_packing :
    ∀ (gtc : Nat → Nat → Nat) (addr : Address) (repeater ack : Nat),
    repeater < 4 → ack < 16 →
    1 ≤ gtc addr.network_id addr.upb_id → gtc addr.network_id addr.upb_id ≤ 4 →
    _create_control_word gtc addr repeater ack < 65536 ∧
    _create_control_word gtc addr repeater ack / 2 ^ 15 =
      (if addr.is_link then 1 else 0) ∧
    _create_control_word gtc addr repeater ack / 2 ^ 13 % 4 = repeater ∧
    _create_control_word gtc addr repeater ack / 2 ^ 4 % 16 = ack ∧
    _create_control_word gtc addr repeater ack / 2 ^ 2 % 4 =
      gtc addr.network_id addr.upb_id - 1 ∧
    _create_control_word gtc addr repeater ack % 4 = 0 := by
  intro gtc addr repeater ack hr ha h1 h4
  have hl : (if addr.is_link then 1 else 0) < 2 := by split <;> omega
  have ht : gtc addr.network_id addr.upb_id - 1 < 4 := by omega
  exact control_word_bits _ hl _ hr _ ha _ ht

/-- Witness for C4 at link=true, repeaterReq=2, ackReq=5, declared tx count 3:
the word has the link bit set, repeater bits 10 (2), ack bits 0101 (5) and
tx-count-minus-one bits 10 (2). -/
theorem create_control_word_bit_packing_witness :
    _create_control_word (fun _ _ => 3) ⟨1, 2, 0, true, false, false⟩ 2 5 < 65536 ∧
    _create_control_word (fun _ _ => 3) ⟨1, 2, 0, true, false, false⟩ 2 5 / 2 ^ 15 = 1 ∧
    _create_control_word (fun _ _ => 3) ⟨1, 2, 0, true, false, false⟩ 2 5 / 2 ^ 13 % 4 = 2 ∧
    _create_control_word (fun _ _ => 3) ⟨1, 2, 0, true, false, false⟩ 2 5 / 2 ^ 4 % 16 = 5 ∧
    _create_control_word (fun _ _ => 3) ⟨1, 2, 0, true, false, false⟩ 2 5 / 2 ^ 2 % 4 = 2 ∧
    _create_control_word (fun _ _ => 3) ⟨1, 2, 0, true, false, false⟩ 2 5 % 4 = 0 :=
  create_control_word_bit_packing (fun _ _ => 3) ⟨1, 2, 0, true, false, false⟩ 2 5
    (by decide) (by decide) (by decide) (by decide)

/-! ## Claim C7 -/

/-- C7: the goto/fade_start payload starts with the level byte; when the
address targets a multi-channel device it is
`[level, 0xFF if rate = -1 else rate, channel + 1]`; otherwise `[level, rate]`
when a rate is given and `[level]` alone when rate = -1.  Both `goto` and
`fade_start` route this payload through `_encode_message`. -/
theorem encode_common_payload :
    ∀ (addr : Address) (level : Nat) (rate : Int),
    (addr.is_device = true → addr.multi_channel = true →
      _encode_common_args addr level rate =
        [level, if rate = -1 then 0xFF else rate.toNat, addr.channel + 1]) ∧
    (¬(addr.is_device = true ∧ addr.multi_channel = true) → rate ≠ -1 →
      _encode_common_args addr level rate = [level, rate.toNat]) ∧
    (¬(addr.is_device = true ∧ addr.multi_channel = true) → rate = -1 →
      _encode_common_args addr level rate = [level]) ∧
    (∀ (gtc : Nat → Nat → Nat) (ctl : Int),
      goto gtc ctl addr level rate =
        _encode_message gtc ctl addr PIM_ID UpbCommand.GOTO
          (_encode_common_args addr level rate)) ∧
    (∀ (gtc : Nat → Nat → Nat) (ctl : Int),
      fade_start gtc ctl addr level rate =
        _encode_message gtc ctl addr PIM_ID UpbCommand.FADE_START
          (_encode_common_args addr level rate)) := by
  intro addr level rate
  refine ⟨?_, ?_, ?_, fun _ _ => rfl, fun _ _ => rfl⟩
  · intro hd hm
    simp [_encode_common_args, hd, hm]
  · intro hdm hr
    simp only [_encode_common_args, Bool.and_eq_true]
    rw [if_neg hdm, if_neg hr]
  · intro hdm hr
    simp only [_encode_common_args, Bool.and_eq_true]
    rw [if_neg hdm, if_pos hr]

/-- Witness for C7: multi-channel device with channel=2, level=50, rate=-1
gives `[50, 0xFF, 3]`; single-channel with level=50, rate=10 gives `[50, 10]`. -/
theorem encode_common_payload_witness :
    _encode_common_args ⟨1, 2, 2, false, true, true⟩ 50 (-1) = [50, 255, 3] ∧
    _encode_common_args ⟨1, 2, 0, false, true, false⟩ 50 10 = [50, 10] :=
  ⟨(encode_common_payload ⟨1, 2, 2, false, true, true⟩ 50 (-1)).1 rfl rfl,
   (encode_common_payload ⟨1, 2, 0, false, true, false⟩ 50 10).2.1
     (by simp) (by decide)⟩

/-! ## Claim C9 -/

theorem dict_lookup_set {H : Type} (reg : List (Nat × List H)) (c c2 : Nat)
    (v : List H) :
    dict_lookup (dict_set reg c v) c2 =
      if c = c2 then some v else dict_lookup reg c2 := by
  induction reg with
  | nil => simp [dict_set, dict_lookup]
  | cons p rest ih =>
    obtain ⟨k, w⟩ := p
    by_cases hk : k = c
    · subst hk
      by_cases hc2 : k = c2 <;> simp [dict_set, dict_lookup, hc2]
    · by_cases hc2 : k = c2
      · subst hc2
        have hck : ¬ c = k := fun hcon => hk hcon.symm
        simp [dict_set, dict_lookup, hk, hck]
      · simp [dict_set, dict_lookup, hk, hc2, ih]

theorem add_handler_nodup {H : Type} [DecidableEq H] (reg : List (Nat × List H))
    (c : Nat) (h : H)
    (hinv : ∀ c2 l, dict_lookup reg c2 = some l → l.Nodup) :
    ∀ c2 l, dict_lookup (add_handler reg c h) c2 = some l → l.Nodup := by
  intro c2 l hl
  cases hn : dict_lookup reg c with
  | none =>
    have hres : add_handler reg c h = dict_set (dict_set reg c []) c [h] := by
      simp [add_handler, hn, dict_lookup_set]
    rw [hres, dict_lookup_set] at hl
    by_cases hc : c = c2
    · rw [if_pos hc] at hl
      injection hl with hl
      subst hl
      exact List.nodup_singleton h
    · rw [if_neg hc, dict_lookup_set, if_neg hc] at hl
      exact hinv c2 l hl
  | some L =>
    by_cases hm : h ∈ L
    · have hres : add_handler reg c h = reg := by
        simp [add_handler, hn, hm]
      rw [hres] at hl
      exact hinv c2 l hl
    · have hres : add_handler reg c h = dict_set reg c (L ++ [h]) := by
        simp [add_handler, hn, hm]
      rw [hres, dict_lookup_set] at hl
      by_cases hc : c = c2
      · rw [if_pos hc] at hl
        injection hl with hl
        subst hl
        have hLnd : L.Nodup := hinv c L hn
        simp [List.nodup_append, hLnd, hm]
      · rw [if_neg hc] at hl
        exact hinv c2 l hl

/-- C9: registering a callback already registered for a command code leaves
the registry unchanged, and consequently every handler list reachable from an
empty registry by `add_handler` calls is duplicate free. -/
theorem add_handler_idempotent_nodup (H : Type) [DecidableEq H] :
    (∀ (reg : List (Nat × List H)) (c : Nat) (h : H) (l : List H),
      dict_lookup reg c = some l → h ∈ l → add_handler reg c h = reg) ∧
    (∀ ops : List (Nat × H), ∀ c l,
      dict_lookup (ops.foldl (fun r p => add_handler r p.1 p.2) []) c = some l →
      l.Nodup) := by
  constructor
  · intro reg c h l hlk hm
    simp [add_handler, hlk, hm]
  · have key : ∀ (ops : List (Nat × H)) (reg : List (Nat × List H)),
        (∀ c l, dict_lookup reg c = some l → l.Nodup) →
        ∀ c l,
          dict_lookup (ops.foldl (fun r p => add_handler r p.1 p.2) reg) c = some l →
          l.Nodup := by
      intro ops
      induction ops with
      | nil => intro reg hinv; exact hinv
      | cons p rest ih =>
        intro reg hinv
        exact ih _ (add_handler_nodup reg p.1 p.2 hinv)
    intro ops
    refine key ops [] ?_
    intro c l hl
    simp [dict_lookup] at hl

/-- Witness for C9: re-adding handler 5 for code 10 is a no-op, and the
handler list reached after registering (10,5) twice from empty is
duplicate free. -/
theorem add_handler_idempotent_nodup_witness :
    add_handler [(10, [5])] 10 (5 : Nat) = [(10, [5])] ∧ List.Nodup [5] :=
  ⟨(add_handler_idempotent_nodup Nat).1 [(10, [5])] 10 5 [5] (by decide) (by decide),
   (add_handler_idempotent_nodup Nat).2 [(10, 5), (10, 5)] 10 [5] (by decide)⟩

/-! ## Helper lemmas: the encoded frame -/

/-- Characterization of a successful `_encode_message`: the frame is the
six header bytes, the payload and a zero placeholder, run through
`_update_checksum`. -/
theorem encode_message_some (gtc : Nat → Nat → Nat) (ctl : Int) (addr : Address)
    (src code : Nat) (data : List Nat) (s : String)
    (h : _encode_message gtc ctl addr src code data = some s) :
    ∃ c2 : Nat, c2 < 65536 ∧ addr.network_id < 256 ∧ addr.upb_id < 256 ∧
      src < 256 ∧ code < 256 ∧ (∀ b ∈ data, b < 256) ∧
      s = hexEncode (_update_checksum
        (([c2 >>> 8, c2 &&& 255, addr.network_id, addr.upb_id, src, code] ++
          data) ++ [0])) := by
  simp only [_encode_message] at h
  split at h
  all_goals
    split at h
    · rename_i hc
      obtain ⟨h1, h2, h3, h4, h5, h6⟩ := hc
      injection h with h
      refine ⟨_, h1, h2, h3, h4, h5, ?_, h.symm⟩
      intro b hb
      simpa using List.all_eq_true.mp h6 b hb
    · cases h

theorem checksum_byte_lt (S : Int) : ((256 - S) % 256).toNat < 256 := by omega

/-- Every byte of a successfully assembled frame is below 256. -/
theorem encode_frame_bytes_lt (c2 net upb src code : Nat) (data : List Nat)
    (x : Nat) (hc2 : c2 < 65536) (hnet : net < 256) (hupb : upb < 256)
    (hsrc : src < 256) (hcode : code < 256) (hdata : ∀ b ∈ data, b < 256)
    (hx : x < 256) :
    ∀ b ∈ ([c2 >>> 8, c2 &&& 255, net, upb, src, code] ++ data) ++ [x],
      b < 256 := by
  intro b hb
  have hsh : c2 >>> 8 < 256 := by
    rw [Nat.shiftRight_eq_div_pow]
    omega
  have hand : c2 &&& 255 < 256 := by
    rw [and_mask255_mod]
    omega
  rcases List.mem_append.mp hb with hb | hb
  · rcases List.mem_append.mp hb with hb | hb
    · simp at hb
      rcases hb with rfl | rfl | rfl | rfl | rfl | rfl <;> omega
    · exact hdata b hb
  · simp at hb
    omega

/-! ## Claim C1 -/

/-- C1 counterexample: with a 25-byte payload the total frame length is
7 + 25 = 32 > 31, yet `_encode_message` succeeds and returns a hex string:
the source contains no frame-length check and raises no FrameTooLong. -/
theorem encode_overlong_frame_succeeds :
    (_encode_message (fun _ _ => 1) (-1) ⟨1, 2, 0, false, true, false⟩ 255 34
      (List.replicate 25 0)).isSome = true := by decide

/-- C1 (amended: `_encode_message` performs no length check and never fails
with FrameTooLong): with the automatic control word and in-range byte
arguments it succeeds for every payload with total length 7 + len(payload)
up to 255 — at the claimed limit 31 but equally beyond it, where the 5-bit
length field silently overflows into adjacent control-word bits. -/
theorem encode_no_length_check :
    ∀ (gtc : Nat → Nat → Nat) (addr : Address) (src code : Nat)
      (data : List Nat),
    addr.network_id < 256 → addr.upb_id < 256 → src < 256 → code < 256 →
    (∀ b ∈ data, b < 256) →
    1 ≤ gtc addr.network_id addr.upb_id → gtc addr.network_id addr.upb_id ≤ 4 →
    7 + data.length ≤ 255 →
    (_encode_message gtc (-1) addr src code data).isSome = true := by
  intro gtc addr src code data hnet hupb hsrc hcode hdata h1 h4 hlen
  have hl : (if addr.is_link then 1 else 0) < 2 := by split <;> omega
  have ht : gtc addr.network_id addr.upb_id - 1 < 4 := by omega
  have hctlN : _create_control_word gtc addr 0 0 < 65536 :=
    (control_word_bits _ hl 0 (by omega) 0 (by omega) _ ht).1
  have hshift : (7 + data.length) <<< 8 < 65536 := by
    rw [Nat.shiftLeft_eq]
    have h256 : (2 : Nat) ^ 8 = 256 := by norm_num
    rw [h256]
    omega
  have hctl2 :
      (_create_control_word gtc addr 0 0 ||| (7 + data.length) <<< 8) < 65536 :=
    @Nat.or_lt_two_pow _ _ 16 hctlN hshift
  simp only [_encode_message]
  rw [if_pos ⟨hctl2, hnet, hupb, hsrc, hcode,
    List.all_eq_true.mpr fun b hb => decide_eq_true (hdata b hb)⟩]
  rfl

/-- Witness for C1 at total lengths 31 (payload 24) and 32 (payload 25). -/
theorem encode_no_length_check_witness :
    (_encode_message (fun _ _ => 1) (-1) ⟨1, 2, 0, false, true, false⟩ 255 34
      (List.replicate 24 0)).isSome = true :=
  encode_no_length_check (fun _ _ => 1) ⟨1, 2, 0, false, true, false⟩ 255 34
    (List.replicate 24 0) (by decide) (by decide) (by decide) (by decide)
    (by decide) (by decide) (by decide) (by decide)

/-! ## Claim C3 -/

/-- C3: every frame produced by `_encode_message` sums to 0 modulo 256, and
its final byte equals `(256 - sum_of_preceding_bytes) mod 256`. -/
theorem encode_checksum_invariant :
    ∀ (gtc : Nat → Nat → Nat) (ctl : Int) (addr : Address) (src code : Nat)
      (data : List Nat) (s : String),
    _encode_message gtc ctl addr src code data = some s →
    ∃ bs : List Nat, hexDecode s = some bs ∧ 0 < bs.length ∧
      bs.sum % 256 = 0 ∧
      bs.getD (bs.length - 1) 0 =
        (256 - (bs.take (bs.length - 1)).sum % 256) % 256 := by
  intro gtc ctl addr src code data s h
  obtain ⟨c2, hc2, hnet, hupb, hsrc, hcode, hdata, hs⟩ :=
    encode_message_some gtc ctl addr src code data s h
  subst hs
  set A : List Nat :=
    [c2 >>> 8, c2 &&& 255, addr.network_id, addr.upb_id, src, code] ++ data
    with hA
  rw [update_checksum_append]
  set v : Nat := ((256 - ((A.sum + 0 : Nat) : Int)) % 256).toNat with hv
  have hvlt : v < 256 := by rw [hv]; exact checksum_byte_lt _
  refine ⟨A ++ [v], ?_, by simp, ?_, ?_⟩
  · exact hexDecode_hexEncode _
      (encode_frame_bytes_lt c2 _ _ _ _ data v hc2 hnet hupb hsrc hcode hdata hvlt)
  · have hsum := sum_update_checksum_append_zero A
    rw [update_checksum_append] at hsum
    exact hsum
  · have hlen : (A ++ [v]).length - 1 = A.length := by simp
    rw [hlen]
    have hget : (A ++ [v]).getD A.length 0 = v := by
      rw [List.getD_eq_getElem?_getD, List.getElem?_append_right (Nat.le_refl _)]
      simp
    have htake : (A ++ [v]).take A.length = A := List.take_left A [v]
    rw [hget, htake, hv]
    omega

/-- Witness for C3 on the concrete frame encoded from network 1, target 2,
source 0xFF, command 0x22 and empty payload. -/
theorem encode_checksum_invariant_witness :
    ∃ bs : List Nat, hexDecode (hexEncode [7, 0, 1, 2, 255, 34, 213]) = some bs ∧
      0 < bs.length ∧ bs.sum % 256 = 0 ∧
      bs.getD (bs.length - 1) 0 =
        (256 - (bs.take (bs.length - 1)).sum % 256) % 256 :=
  encode_checksum_invariant (fun _ _ => 1) (-1) ⟨1, 2, 0, false, true, false⟩
    255 34 [] (hexEncode [7, 0, 1, 2, 255, 34, 213]) (by decide)

/-! ## Claim C8 -/

/-- C8: decoding the byte form of any successfully encoded frame recovers
the network id, destination (target) id, source id and command code that
were supplied to the encoder. -/
theorem encode_decode_roundtrip :
    ∀ (gtc : Nat → Nat → Nat) (ctl : Int) (addr : Address) (src code : Nat)
      (data : List Nat) (s : String),
    _encode_message gtc ctl addr src code data = some s →
    ∃ bs m, hexDecode s = some bs ∧ decode bs = some m ∧
      m.network_id = addr.network_id ∧ m.dest_id = addr.upb_id ∧
      m.src_id = src ∧ m.msg_id = code := by
  intro gtc ctl addr src code data s h
  obtain ⟨c2, hc2, hnet, hupb, hsrc, hcode, hdata, hs⟩ :=
    encode_message_some gtc ctl addr src code data s h
  subst hs
  rw [update_checksum_append]
  set v : Nat :=
    ((256 - ((([c2 >>> 8, c2 &&& 255, addr.network_id, addr.upb_id, src, code]
      ++ data).sum + 0 : Nat) : Int)) % 256).toNat with hv
  have hvlt : v < 256 := by rw [hv]; exact checksum_byte_lt _
  exact ⟨_, _, hexDecode_hexEncode _
    (encode_frame_bytes_lt c2 _ _ _ _ data v hc2 hnet hupb hsrc hcode hdata hvlt),
    decode_cons6 (c2 >>> 8) (c2 &&& 255) addr.network_id addr.upb_id src code
      (data ++ [v]),
    rfl, rfl, rfl, rfl⟩

/-- Witness for C8 on the same concrete frame as the C3 witness. -/
theorem encode_decode_roundtrip_witness :
    ∃ bs m, hexDecode (hexEncode [7, 0, 1, 2, 255, 34, 213]) = some bs ∧
      decode bs = some m ∧ m.network_id = 1 ∧ m.dest_id = 2 ∧
      m.src_id = 255 ∧ m.msg_id = 34 :=
  encode_decode_roundtrip (fun _ _ => 1) (-1) ⟨1, 2, 0, false, true, false⟩
    255 34 [] (hexEncode [7, 0, 1, 2, 255, 34, 213]) (by decide)

/-! ## Helper lemmas: increment_tx_count -/

/-- A list of at least two bytes yields its byte 1 through `getElem?`. -/
theorem getElem1_eq_getD (bs : List Nat) (h : 1 < bs.length) :
    bs[1]? = some (bs.getD 1 0) := by
  rw [List.getD_eq_getElem?_getD]
  cases hx : bs[1]? with
  | none =>
    rw [List.getElem?_eq_none_iff] at hx
    omega
  | some y => rfl

/-- `increment_tx_count` on a frame whose tx-count field is already 3
returns its input unchanged. -/
theorem increment_saturated (s : String) (bs : List Nat)
    (hdec : hexDecode s = some bs) (ht : tx_count_field bs = 3) :
    increment_tx_count s = some s := by
  have hblt : ∀ b ∈ bs, b < 256 := hexDecode_lt s bs hdec
  have h2 : 2 ≤ bs.length := by
    by_contra hcon
    push_neg at hcon
    have hz : bs.getD 1 0 = 0 := by
      rw [List.getD_eq_getElem?_getD, List.getElem?_eq_none (by omega)]
      rfl
    rw [tx_count_field, hz] at ht
    simp at ht
  have hb1 : bs[1]? = some (bs.getD 1 0) := getElem1_eq_getD bs (by omega)
  have hb1lt : bs.getD 1 0 < 256 := hblt _ (List.getElem?_mem hb1)
  have htb : (bs.getD 1 0 >>> 2) &&& 3 = 3 := by
    rw [txfield_byte_eq _ hb1lt]
    exact ht
  simp only [increment_tx_count, hdec, hb1]
  rw [if_pos htb]

/-- One unsaturated `increment_tx_count` step on the hex form of a frame:
the result re-parses to a frame of the same length whose tx-count field has
grown by one, whose byte 1 is otherwise unchanged, whose other bytes apart
from the final checksum byte are unchanged, and whose bytes sum to 0
modulo 256. -/
theorem increment_step (bs : List Nat) (hb : ∀ b ∈ bs, b < 256)
    (hl : 3 ≤ bs.length) (ht : ¬ tx_count_field bs = 3) :
    ∃ bs2 : List Nat,
      increment_tx_count (hexEncode bs) = some (hexEncode bs2) ∧
      bs2.length = bs.length ∧ (∀ b ∈ bs2, b < 256) ∧
      tx_count_field bs2 = tx_count_field bs + 1 ∧
      bs2.getD 1 0 % 4 = bs.getD 1 0 % 4 ∧
      bs2.getD 1 0 / 16 = bs.getD 1 0 / 16 ∧
      (∀ i : Nat, i ≠ 1 → i ≠ bs.length - 1 → bs2.getD i 0 = bs.getD i 0) ∧
      bs2.sum % 256 = 0 := by
  have h1lt : 1 < bs.length := by omega
  have hb1 : bs[1]? = some (bs.getD 1 0) := getElem1_eq_getD bs h1lt
  have hb1lt : bs.getD 1 0 < 256 := hb _ (List.getElem?_mem hb1)
  have htb : ¬ (bs.getD 1 0 >>> 2) &&& 3 = 3 := by
    rw [txfield_byte_eq _ hb1lt]
    exact ht
  obtain ⟨hc1, hc2, hc3, hc4⟩ := ctl_step_bits (bs.getD 1 0) hb1lt htb
  set c2 := (bs.getD 1 0 &&& 0xF3) |||
    ((((bs.getD 1 0 >>> 2) &&& 3) + 1) <<< 2) with hc2def
  set M := bs.set 1 c2 with hM
  have hMlen : M.length = bs.length := by rw [hM]; simp
  have hMne : M ≠ [] := by
    intro hcon
    have hcon2 : M.length = 0 := by rw [hcon]; rfl
    rw [hMlen] at hcon2
    omega
  have hstep : increment_tx_count (hexEncode bs) =
      some (hexEncode (_update_checksum (M.set (M.length - 1) 0))) := by
    simp only [increment_tx_count, hexDecode_hexEncode bs hb, hb1]
    rw [if_neg htb]
  have hset : M.set (M.length - 1) 0 = M.dropLast ++ [0] := set_last_eq M hMne 0
  have hupd : _update_checksum (M.dropLast ++ [0]) =
      M.dropLast ++ [((256 - ((M.dropLast.sum + 0 : Nat) : Int)) % 256).toNat] :=
    update_checksum_append M.dropLast 0
  set v : Nat := ((256 - ((M.dropLast.sum + 0 : Nat) : Int)) % 256).toNat with hv
  have hvlt : v < 256 := checksum_byte_lt _
  have hdlen : M.dropLast.length = bs.length - 1 := by
    rw [List.length_dropLast, hMlen]
  have hgd : (M.dropLast ++ [v]).getD 1 0 = c2 := by
    rw [List.getD_eq_getElem?_getD,
      List.getElem?_append_left (by rw [hdlen]; omega),
      List.getElem?_dropLast, if_pos (by rw [hMlen]; omega), hM,
      List.getElem?_set_self h1lt]
    rfl
  refine ⟨M.dropLast ++ [v], ?_, ?_, ?_, ?_, ?_, ?_, ?_, ?_⟩
  · rw [hstep, hset, hupd]
  · rw [List.length_append, hdlen]
    simp
    omega
  · intro b hbm
    rcases List.mem_append.mp hbm with hbm | hbm
    · rcases List.mem_or_eq_of_mem_set (hM ▸ List.mem_of_mem_dropLast hbm) with
        hbb | rfl
      · exact hb b hbb
      · exact hc1
    · simp at hbm
      omega
  · rw [tx_count_field, hgd, tx_count_field]
    rw [hc2def] at hc2
    exact hc2
  · rw [hgd]
    rw [hc2def] at hc3
    exact hc3
  · rw [hgd]
    rw [hc2def] at hc4
    exact hc4
  · intro i hi1 hilast
    by_cases hlt : i < bs.length - 1
    · rw [List.getD_eq_getElem?_getD,
        List.getElem?_append_left (by rw [hdlen]; omega),
        List.getElem?_dropLast, if_pos (by rw [hMlen]; omega), hM,
        List.getElem?_set_ne (fun hcon => hi1 hcon.symm),
        ← List.getD_eq_getElem?_getD]
    · have hige : bs.length ≤ i := by omega
      rw [List.getD_eq_getElem?_getD,
        List.getElem?_eq_none (by rw [List.length_append, hdlen]; simp; omega),
        List.getD_eq_getElem?_getD, List.getElem?_eq_none hige]
  · rw [← hupd]
    exact sum_update_checksum_append_zero M.dropLast

/-! ## Claim C5 -/

/-- C5: `increment_tx_count` is saturating: on any hex frame whose tx-count
field (bits 3-2 of byte 1) is 3 it returns its input unchanged, and four
successive applications to a frame whose tx-count field is 0 produce frames
with fields 1, 2, 3 and again 3 — it never wraps to 0. -/
theorem increment_tx_count_saturating :
    (∀ (s : String) (bs : List Nat), hexDecode s = some bs →
      tx_count_field bs = 3 → increment_tx_count s = some s) ∧
    (∀ bs : List Nat, (∀ b ∈ bs, b < 256) → 3 ≤ bs.length →
      tx_count_field bs = 0 →
      ∃ f1 f2 f3 : List Nat,
        increment_tx_count (hexEncode bs) = some (hexEncode f1) ∧
        tx_count_field f1 = 1 ∧
        increment_tx_count (hexEncode f1) = some (hexEncode f2) ∧
        tx_count_field f2 = 2 ∧
        increment_tx_count (hexEncode f2) = some (hexEncode f3) ∧
        tx_count_field f3 = 3 ∧
        increment_tx_count (hexEncode f3) = some (hexEncode f3)) := by
  constructor
  · exact increment_saturated
  · intro bs hb hl ht0
    obtain ⟨f1, he1, hl1, hby1, htx1, hm1, hd1, ho1, hs1⟩ :=
      increment_step bs hb hl (by omega)
    rw [ht0] at htx1
    obtain ⟨f2, he2, hl2, hby2, htx2, hm2, hd2, ho2, hs2⟩ :=
      increment_step f1 hby1 (by omega) (by omega)
    rw [htx1] at htx2
    obtain ⟨f3, he3, hl3, hby3, htx3, hm3, hd3, ho3, hs3⟩ :=
      increment_step f2 hby2 (by omega) (by omega)
    rw [htx2] at htx3
    have hsat : increment_tx_count (hexEncode f3) = some (hexEncode f3) :=
      increment_saturated (hexEncode f3) f3 (hexDecode_hexEncode f3 hby3) htx3
    exact ⟨f1, f2, f3, he1, htx1, he2, htx2, he3, htx3, hsat⟩

/-- Witness for C5: the all-zero 7-byte frame steps through tx-count fields
1, 2, 3 and then saturates; a frame with byte 1 = 0x0C (field 3) is returned
unchanged. -/
theorem increment_tx_count_saturating_witness :
    increment_tx_count (hexEncode [0, 12, 0]) = some (hexEncode [0, 12, 0]) ∧
    (∃ f1 f2 f3 : List Nat,
      increment_tx_count (hexEncode [0, 0, 0, 0, 0, 0, 0]) =
        some (hexEncode f1) ∧
      tx_count_field f1 = 1 ∧
      increment_tx_count (hexEncode f1) = some (hexEncode f2) ∧
      tx_count_field f2 = 2 ∧
      increment_tx_count (hexEncode f2) = some (hexEncode f3) ∧
      tx_count_field f3 = 3 ∧
      increment_tx_count (hexEncode f3) = some (hexEncode f3)) :=
  ⟨increment_tx_count_saturating.1 (hexEncode [0, 12, 0]) [0, 12, 0]
     (by decide) (by decide),
   increment_tx_count_saturating.2 [0, 0, 0, 0, 0, 0, 0]
     (by decide) (by decide) (by decide)⟩

/-! ## Claim C10 -/

/-- C10: on a well-formed frame whose tx-count field is below 3,
`increment_tx_count` changes only bits 3-2 of byte 1 and the final checksum
byte — every other byte and every other bit of byte 1 (tx sequence bits 1-0
and the upper bits 7-4) is unchanged — and the returned frame sums to 0
modulo 256 regardless of whether the input did. -/
theorem increment_tx_count_frame_effect :
    ∀ bs : List Nat, (∀ b ∈ bs, b < 256) → 7 ≤ bs.length →
    tx_count_field bs < 3 →
    ∃ bs2 : List Nat,
      increment_tx_count (hexEncode bs) = some (hexEncode bs2) ∧
      bs2.length = bs.length ∧
      (∀ i : Nat, i ≠ 1 → i ≠ bs.length - 1 → bs2.getD i 0 = bs.getD i 0) ∧
      bs2.getD 1 0 % 4 = bs.getD 1 0 % 4 ∧
      bs2.getD 1 0 / 16 = bs.getD 1 0 / 16 ∧
      tx_count_field bs2 = tx_count_field bs + 1 ∧
      bs2.sum % 256 = 0 := by
  intro bs hb hl ht
  obtain ⟨bs2, he, hlen, hby, htx, hm4, hd16, hoth, hsum⟩ :=
    increment_step bs hb (by omega) (by omega)
  exact ⟨bs2, he, hlen, hoth, hm4, hd16, htx, hsum⟩

/-- Witness for C10 on the frame `07 00 01 02 FF 22 D5`. -/
theorem increment_tx_count_frame_effect_witness :
    ∃ bs2 : List Nat,
      increment_tx_count (hexEncode [7, 0, 1, 2, 255, 34, 213]) =
        some (hexEncode bs2) ∧
      bs2.length = [7, 0, 1, 2, 255, 34, 213].length ∧
      (∀ i : Nat, i ≠ 1 → i ≠ [7, 0, 1, 2, 255, 34, 213].length - 1 →
        bs2.getD i 0 = [7, 0, 1, 2, 255, 34, 213].getD i 0) ∧
      bs2.getD 1 0 % 4 = [7, 0, 1, 2, 255, 34, 213].getD 1 0 % 4 ∧
      bs2.getD 1 0 / 16 = [7, 0, 1, 2, 255, 34, 213].getD 1 0 / 16 ∧
      tx_count_field bs2 = tx_count_field [7, 0, 1, 2, 255, 34, 213] + 1 ∧
      bs2.sum % 256 = 0 :=
  increment_tx_count_frame_effect [7, 0, 1, 2, 255, 34, 213]
    (by decide) (by decide) (by decide)

end UpbLib
